import Mathlib

/-
Verification development for the estate-planning agent gateway repository.

The definitions below are shallow embeddings of the Python source:
  * token acquisition with rate-limit retry   — src/ep_agent.py, get_access_token (lines 33-65)
  * the section-progression state machine      — src/ep_agent_sample.py, invoke (lines 133-391)
  * the per-session answers record and store   — src/ep_agent_working_copy.py (lines 314-453)
  * paginated tool listing                     — modelled from the spec (the loop lives in the
                                                 external MCP client library, not under src/)

Python strings are modelled as Lean `String`; Python's substring test `a in b`,
`str.lower()` and `'.' in key` are re-implemented over the character list so that
the kernel can evaluate them.  Python dicts that the code iterates in insertion
order are modelled as association lists in the same order.
-/

/-! ## String helpers (executable models of the Python string operations used) -/

/-- Model of Python `pat.startswith`-style matching on character lists:
`startsWithChars pat text` is true when `pat` is an initial segment of `text`. -/
def startsWithChars : List Char → List Char → Bool
  | [], _ => true
  | _ :: _, [] => false
  | p :: ps, t :: ts => p == t && startsWithChars ps ts

/-- Model of Python substring containment on character lists: `pat` occurs
somewhere inside `text` (the empty pattern is contained in everything,
matching Python's `"" in s == True`). -/
def containsSubList (pat : List Char) : List Char → Bool
  | [] => pat.isEmpty
  | c :: ts => startsWithChars pat (c :: ts) || containsSubList pat ts

/-- Model of Python `pat in text` for strings (substring containment). -/
def strContains (text pat : String) : Bool :=
  containsSubList pat.data text.data

/-- Model of Python `str.lower()` (ASCII lowering, which is all the source's
keyword matching relies on). -/
def strLower (s : String) : String := ⟨s.data.map Char.toLower⟩

/-- Model of Python `c in key` for a single character `c` (used by the source as
`"." in key`). -/
def strHasChar (s : String) (c : Char) : Bool := s.data.any (fun a => a == c)

/-- Python `repr` of a list of strings, as produced by an f-string such as
`f"... {completed_sections}"` in the source's log messages. -/
def pyListRepr (l : List String) : String :=
  "[" ++ (match l with
    | [] => ""
    | x :: xs => xs.foldl (fun acc s => acc ++ ", '" ++ s ++ "'") ("'" ++ x ++ "'")) ++ "]"

/-! ## Token acquisition with retry — src/ep_agent.py lines 33-65

`get_access_token(gateway_client, client_info, max_retries=3)` loops over
`attempt in range(max_retries)`, calling the opaque token capability.  A failure
whose text contains `"429"` or `"Too Many Requests"` is retried (with a sleep,
irrelevant to the returned value) while `attempt < max_retries - 1`; any other
failure — and a rate-limit failure on the final attempt — returns
`(None, "Error accessing gateway: " + str(e))`.  Falling out of the loop returns
`(None, f"Failed to get access token after {max_retries} attempts")`.

The capability is modelled as `cap : Nat → Except String String` giving the
outcome of each 0-indexed attempt; the embedding additionally returns the number
of capability calls made.  The `for` loop is structural recursion on the number
of remaining iterations (`attempt + remaining = max_retries` throughout). -/

/-- Line 54 of src/ep_agent.py: `"429" in error_str or "Too Many Requests" in error_str`. -/
def isRateLimitError (e : String) : Bool :=
  strContains e "429" || strContains e "Too Many Requests"

/-- The retry loop of `get_access_token`; returns ((token?, error?), calls made). -/
def getTokenGo (cap : Nat → Except String String) (maxRetries : Nat) :
    Nat → Nat → (Option String × Option String) × Nat
  | _, 0 =>
    ((none, some ("Failed to get access token after " ++ toString maxRetries ++ " attempts")),
      maxRetries)
  | attempt, r + 1 =>
    match cap attempt with
    | .ok tok => ((some tok, none), attempt + 1)
    | .error e =>
      if isRateLimitError e = true ∧ attempt < maxRetries - 1 then
        getTokenGo cap maxRetries (attempt + 1) r
      else
        ((none, some ("Error accessing gateway: " ++ e)), attempt + 1)

/-- `get_access_token` of src/ep_agent.py (lines 33-65); `maxRetries` defaults to 3
at the call sites. -/
def getAccessToken (cap : Nat → Except String String) (maxRetries : Nat) :
    (Option String × Option String) × Nat :=
  getTokenGo cap maxRetries 0 maxRetries

/-- Capability stub: rate-limited on attempts 0 and 1, succeeds on attempt 2. -/
def stubTokenRetryThenOk : Nat → Except String String := fun i =>
  if i < 2 then .error "429 Too Many Requests" else .ok "tok"

/-- Capability stub: rate-limited on every attempt. -/
def stubTokenAlwaysRL : Nat → Except String String := fun _ =>
  .error "Too Many Requests"

/-- Capability stub: fatal (non-rate-limit) failure on every attempt. -/
def stubTokenFatal : Nat → Except String String := fun _ => .error "boom"

/-! ## Paginated tool listing — modelled from the spec

Modelled from the spec: the pagination loop of `list_tools` is not under `src/`
(the repository only calls the MCP client's `list_tools_sync`, src/ep_agent.py
line 118); spec §4.5 describes it: repeatedly call a fetch-page capability with
a continuation cursor (null on the first call), accumulate the returned items
until the next cursor is null or a page is empty, and cap the total number of
pages defensively (§5).  The fuel argument is that defensive cap. -/

/-- Modelled from the spec: the accumulation loop of `list_tools`; returns the
accumulated items and the number of fetch calls made. -/
def listToolsGo (fetch : Option Nat → List String × Option Nat) :
    Nat → Option Nat → List String → Nat → List String × Nat
  | 0, _, acc, calls => (acc, calls)
  | fuel + 1, cursor, acc, calls =>
    let page := fetch cursor
    if page.1.isEmpty then (acc ++ page.1, calls + 1)
    else
      match page.2 with
      | none => (acc ++ page.1, calls + 1)
      | some c => listToolsGo fetch fuel (some c) (acc ++ page.1) (calls + 1)

/-- Modelled from the spec: `list_tools` starts with a null cursor and no items. -/
def listTools (fetch : Option Nat → List String × Option Nat) (fuel : Nat) :
    List String × Nat :=
  listToolsGo fetch fuel none [] 0

/-- Modelled from the spec: the sequence of pages the loop visits, in fetch order. -/
def pagesVisited (fetch : Option Nat → List String × Option Nat) :
    Nat → Option Nat → List (List String)
  | 0, _ => []
  | fuel + 1, cursor =>
    let page := fetch cursor
    if page.1.isEmpty then [page.1]
    else
      match page.2 with
      | none => [page.1]
      | some c => page.1 :: pagesVisited fetch fuel (some c)

/-- Fetch-page stub from the spec's test vector: first page `["a","b"]` with a
continuation cursor, second page `["c"]` with a null cursor. -/
def stubFetchPages : Option Nat → List String × Option Nat := fun c =>
  match c with
  | none => (["a", "b"], some 1)
  | some _ => (["c"], none)

/-! ## Section-progression state machine — src/ep_agent_sample.py

`WORKFLOW_SECTIONS` (lines 112-122) is the fixed ordering; `section_transitions`
(lines 278-324) maps each section to its trigger keywords and successor; the
transition loop (lines 326-338) scans the current section's keywords in list
order against the lower-cased response text, marks the current section completed
(guarded against duplicates) and advances to `next` on the first hit; the
progress percentage (line 341) divides by `len(WORKFLOW_SECTIONS) - 1`. -/

/-- `WORKFLOW_SECTIONS`, src/ep_agent_sample.py lines 112-122. -/
def WORKFLOW_SECTIONS : List String :=
  ["CLIENT_INFORMATION", "MARITAL_STATUS", "FAMILY_INFORMATION", "ASSETS",
   "DISTRIBUTION_OF_ASSETS", "GUARDIANSHIP", "EXECUTOR_APPOINTMENT",
   "ADDITIONAL_CONSIDERATIONS", "REVIEW_AND_COMPLETION"]

/-- One entry of the `section_transitions` dict: trigger keyword list and
successor section (`data_keys` is never read by the transition logic and is
omitted). -/
structure SectionInfo where
  keywords : List String
  next : Option String
deriving DecidableEq

/-- The `section_transitions` dict literal, src/ep_agent_sample.py lines 278-324,
as an association list in insertion order. -/
def sectionTransitionsList : List (String × SectionInfo) :=
  [("CLIENT_INFORMATION",
     ⟨["marital", "married", "single", "divorced", "widowed"], some "MARITAL_STATUS"⟩),
   ("MARITAL_STATUS",
     ⟨["children", "dependents", "family"], some "FAMILY_INFORMATION"⟩),
   ("FAMILY_INFORMATION",
     ⟨["assets", "property", "accounts", "investments"], some "ASSETS"⟩),
   ("ASSETS",
     ⟨["beneficiaries", "inherit", "distribute", "bequest"], some "DISTRIBUTION_OF_ASSETS"⟩),
   ("DISTRIBUTION_OF_ASSETS",
     ⟨["guardian", "minor", "care for children"], some "GUARDIANSHIP"⟩),
   ("GUARDIANSHIP",
     ⟨["executor", "personal representative", "administer"], some "EXECUTOR_APPOINTMENT"⟩),
   ("EXECUTOR_APPOINTMENT",
     ⟨["funeral", "burial", "charitable", "donation", "pets", "digital"],
      some "ADDITIONAL_CONSIDERATIONS"⟩),
   ("ADDITIONAL_CONSIDERATIONS",
     ⟨["review", "complete", "finalize", "summary"], some "REVIEW_AND_COMPLETION"⟩),
   ("REVIEW_AND_COMPLETION", ⟨[], none⟩)]

/-- `section_transitions.get(current_section)` — dict lookup, line 327. -/
def sectionTransitions (s : String) : Option SectionInfo :=
  (sectionTransitionsList.find? (fun p => p.1 == s)).map Prod.snd

/-- The trigger keywords of a section (`{}.get("keywords", [])` yields `[]` for an
unknown section, line 328). -/
def keywordsOf (s : String) : List String :=
  match sectionTransitions s with
  | some info => info.keywords
  | none => []

/-- The successor of a section per the transitions table (`{}.get("next")`). -/
def nextOf (s : String) : Option String :=
  match sectionTransitions s with
  | some info => info.next
  | none => none

/-- Successor in a fixed ordering: the element directly after `s`. -/
def succAfter : List String → String → Option String
  | [], _ => none
  | [_], _ => none
  | a :: b :: rest, s => if a == s then some b else succAfter (b :: rest) s

/-- The unique successor of a section in the `WORKFLOW_SECTIONS` ordering. -/
def succInWorkflow (s : String) : Option String := succAfter WORKFLOW_SECTIONS s

/-- Lines 331-332: append the current section to `completed_sections` unless it is
already there. -/
def markCompleted (comp : List String) (cur : String) : List String :=
  if cur ∈ comp then comp else comp ++ [cur]

/-- The keyword loop of src/ep_agent_sample.py lines 328-338: scan the current
section's keywords in order against the lower-cased text; on a hit mark the
current section completed and, when a successor exists, move to it and stop
(`break`); with no successor the loop keeps scanning but the state can no
longer change shape. -/
def transitionLoop (msgLower : String) (nxt : Option String) :
    List String → String → List String → String × List String
  | [], cur, comp => (cur, comp)
  | kw :: rest, cur, comp =>
    if strContains msgLower kw then
      let comp' := markCompleted comp cur
      match nxt with
      | some n => (n, comp')
      | none => transitionLoop msgLower nxt rest cur comp'
    else transitionLoop msgLower nxt rest cur comp

/-- The whole section-transition step (lines 326-338): look the current section up
in `section_transitions` (an unknown section yields `{}`, hence no keywords and
no transition) and run the keyword loop. -/
def advanceSection (cur : String) (comp : List String) (msgLower : String) :
    String × List String :=
  match sectionTransitions cur with
  | none => (cur, comp)
  | some info => transitionLoop msgLower info.next info.keywords cur comp

/-- Line 341: `progress = (len(completed_sections) / (len(WORKFLOW_SECTIONS) - 1)) * 100
if WORKFLOW_SECTIONS else 0`, with Python's true division modelled in ℚ. -/
def progressOf (comp : List String) : ℚ :=
  if WORKFLOW_SECTIONS.isEmpty then 0
  else ((comp.length : ℚ) / ((WORKFLOW_SECTIONS.length : ℚ) - 1)) * 100

/-- The non-terminal sections: every section except the trailing
`REVIEW_AND_COMPLETION`. -/
def nonTerminalSections : List String := WORKFLOW_SECTIONS.dropLast

/-- The fresh per-session metadata created at src/ep_agent_sample.py lines 170-175:
section pointer at the first section, progress 0, no completed sections. -/
structure ClientState where
  current_section : String
  progress : ℚ
deriving DecidableEq

/-- The `estate_planning` metadata dict (the fields the transition logic reads). -/
structure Metadata where
  client_state : Option ClientState
  completed_sections : List String
deriving DecidableEq

/-- Lines 170-175: the freshly initialized metadata. -/
def freshMetadata : Metadata :=
  { client_state := some ⟨"CLIENT_INFORMATION", 0⟩, completed_sections := [] }

/-- Lines 167-186: metadata is (re)initialized only when it is missing/empty or
has no `client_state`; existing metadata is kept untouched. -/
def ensureMetadata (m : Option Metadata) : Metadata :=
  match m with
  | none => freshMetadata
  | some md => if md.client_state = none then freshMetadata else md

/-- The structured response dict returned by `invoke` (lines 372-379) together
with the log lines printed by the modelled region (lines 269 and 361). -/
structure InvokeResult where
  result : String
  session_id : String
  current_section : String
  progress : ℚ
  completed_sections : List String
  answers : List (String × String)
  logs : List String
deriving DecidableEq

/-- The post-LLM segment of `invoke` (src/ep_agent_sample.py lines 260-379) for a
session in state (`cur`, `comp`): lower the extracted message text (line 260),
log the retrieved state (line 269), run the section transition (lines 326-338),
recompute the progress percentage (line 341), log the write-back (line 361) and
build the returned dict (lines 370-379).  It is a total function: no code path
aborts the request. -/
def invokeStep (sessionId cur : String) (comp : List String) (messageText : String) :
    InvokeResult :=
  let messageLower := strLower messageText
  let logRetrieved := "Retrieved metadata state with sections: " ++ pyListRepr comp
  let stepped := advanceSection cur comp messageLower
  let progress := progressOf stepped.2
  let logUpdated :=
    "Updated metadata for session: " ++ sessionId ++ ", current section: " ++ stepped.1
  let responseMessage :=
    if messageText = "" then "I'm here to help you create a will." else messageText
  { result := responseMessage
    session_id := sessionId
    current_section := stepped.1
    progress := progress
    completed_sections := stepped.2
    answers := []
    logs := [logRetrieved, logUpdated] }

/-- Modelled from the spec: "report the condition as a recoverable, logged
anomaly" (spec §4.3 failure semantics).  A log line reports an anomaly when it
names some problem; this predicate checks the line for the problem-words an
anomaly report would contain. -/
def mentionsAnomaly (line : String) : Bool :=
  let l := strLower line
  strContains l "error" || strContains l "warn" || strContains l "anomal" ||
    strContains l "corrupt" || strContains l "invalid" || strContains l "unknown" ||
    strContains l "fail" || strContains l "not found"

/-- The session states reachable by the state machine from a freshly created
session (metadata initialized at lines 170-175, then any number of `invoke`
steps with arbitrary message texts). -/
inductive ReachableState : String × List String → Prop where
  | init : ReachableState ("CLIENT_INFORMATION", [])
  | step (cur : String) (comp : List String) (msg : String) :
      ReachableState (cur, comp) → ReachableState (advanceSection cur comp (strLower msg))

/-! ## Answers record, session state and session store — src/ep_agent_working_copy.py

The `Answers` pydantic model (lines 314-369) is a fixed set of attributes, each
with a dotted-path (or camelCase) alias and a default of `""` (scalars) or `[]`
(lists).  A model instance is embedded as an association list from attribute
name to value, in declaration order — `setattr` replaces the value at a key,
`hasattr` tests key presence.  Values are opaque to all the operations under
study and are embedded as strings or lists of strings. -/

/-- An opaque answer value: Python passes strings or lists through `setattr`
unchanged. -/
inductive Val where
  | s : String → Val
  | l : List String → Val
deriving DecidableEq

/-- One field of the `Answers` model: attribute name, alias, and whether the
default is a list (`default_factory=list`) rather than `""`. -/
structure FieldSpec where
  name : String
  aliasPath : String
  isList : Bool
deriving DecidableEq

/-- The `Answers.__fields__` table, src/ep_agent_working_copy.py lines 314-366,
in declaration order. -/
def answersFields : List FieldSpec :=
  [⟨"full_name", "client.fullName", false⟩,
   ⟨"gender", "client.gender", false⟩,
   ⟨"dob", "client.DOB", false⟩,
   ⟨"aka", "client.AKA", false⟩,
   ⟨"city", "client.address.city", false⟩,
   ⟨"state", "client.address.state", false⟩,
   ⟨"email", "client.email", false⟩,
   ⟨"marital_status", "client.maritalStatus", false⟩,
   ⟨"dom", "client.DOM", false⟩,
   ⟨"spouse_full_name", "spouse.fullName", false⟩,
   ⟨"spouse_aka", "spouse.AKA", false⟩,
   ⟨"spouse_dob", "spouse.DOB", false⟩,
   ⟨"has_children", "client.hasChildren", false⟩,
   ⟨"children", "client.children", true⟩,
   ⟨"incapacity_primary_name", "representatives.incapacity.primary.fullName", false⟩,
   ⟨"incapacity_has_alternates", "representatives.incapacity.hasAlternates", false⟩,
   ⟨"incapacity_alternates", "representatives.incapacity.alternates", true⟩,
   ⟨"after_death_primary_name", "representatives.afterDeath.primary.fullName", false⟩,
   ⟨"after_death_has_alternates", "representatives.afterDeath.hasAlternates", false⟩,
   ⟨"after_death_alternates", "representatives.afterDeath.alternates", true⟩,
   ⟨"healthcare_primary_name", "representatives.healthcare.primary.fullName", false⟩,
   ⟨"healthcare_has_alternates", "representatives.healthcare.hasAlternates", false⟩,
   ⟨"healthcare_alternates", "representatives.healthcare.alternates", true⟩,
   ⟨"has_guardians", "hasGuardians", false⟩,
   ⟨"guardians", "guardians", true⟩,
   ⟨"has_pet_provisions", "client.hasPetProvisions", false⟩,
   ⟨"pets", "client.pets", true⟩,
   ⟨"pets_caretaker", "client.petsCaretaker", false⟩,
   ⟨"pets_care_amount", "client.petsCareAmount", false⟩,
   ⟨"maintain_in_home", "maintainInHome", false⟩,
   ⟨"remains_preference", "remainsPreference", false⟩,
   ⟨"has_specific_gifts", "hasSpecificGifts", false⟩,
   ⟨"specific_gifts", "specificGifts", true⟩,
   ⟨"residuary_distribution", "residuaryDistribution", false⟩,
   ⟨"residuary_named_beneficiaries", "residuaryNamedBeneficiaries", true⟩]

/-- An `Answers` instance: attribute name to value, in declaration order. -/
abbrev Answers := List (String × Val)

/-- A fresh `Answers()` instance: every field at its declared default. -/
def defaultAnswers : Answers :=
  answersFields.map (fun f => (f.name, if f.isList then Val.l [] else Val.s ""))

/-- Python `setattr(self, key, value)` on the embedded record: replace the value
stored under `key` (no effect when the attribute does not exist). -/
def setAttr (a : Answers) (key : String) (v : Val) : Answers :=
  a.map (fun p => if p.1 == key then (key, v) else p)

/-- Python `hasattr(self, key)` restricted to the model's fields. -/
def hasAttr (a : Answers) (key : String) : Bool :=
  a.any (fun p => p.1 == key)

/-- `Answers.update_from_flat_dict`, src/ep_agent_working_copy.py lines 375-379:
for each key/value, assign when the attribute exists. -/
def update_from_flat_dict (a : Answers) (data : List (String × Val)) : Answers :=
  data.foldl (fun acc kv => if hasAttr acc kv.1 then setAttr acc kv.1 kv.2 else acc) a

/-- One step of the dotted-notation branch of `SessionManager.update_answers`
(lines 422-427): scan `__fields__` in declaration order for the first field whose
alias equals the key and assign to it; keys matching no alias are skipped. -/
def dottedAssign (acc : Answers) (kv : String × Val) : Answers :=
  match answersFields.find? (fun f => f.aliasPath == kv.1) with
  | some f => setAttr acc f.name kv.2
  | none => acc

/-- `Answers.update_from_dotted_dict`, lines 381-392: the alias-to-attribute
lookup built there maps each alias to its field name (aliases are pairwise
distinct, so first match and dict lookup agree). -/
def update_from_dotted_dict (a : Answers) (data : List (String × Val)) : Answers :=
  data.foldl dottedAssign a

/-- `SessionManager.update_answers`, src/ep_agent_working_copy.py lines 415-432:
if ANY key of the update map contains a literal `.` the whole map is processed
through alias matching, otherwise through direct attribute names. -/
def update_answers (a : Answers) (data : List (String × Val)) : Answers :=
  if data.any (fun kv => strHasChar kv.1 '.') then
    data.foldl dottedAssign a
  else
    update_from_flat_dict a data

/-- A plain sequence of unconditional `setattr` assignments; both branches of
`update_answers` reduce to this on a pre-resolved key list. -/
def applyAssignments (a : Answers) (l : List (String × Val)) : Answers :=
  l.foldl (fun acc kv => setAttr acc kv.1 kv.2) a

/-- The value the last assignment to `k` in `l` would store, starting from `i`. -/
def lastValFrom (l : List (String × Val)) (k : String) (i : Option Val) : Option Val :=
  l.foldl (fun acc kv => if kv.1 == k then some kv.2 else acc) i

/-- The alias-resolved assignment list of the dotted branch of `update_answers`. -/
def dottedResolve (data : List (String × Val)) : List (String × Val) :=
  data.filterMap (fun kv =>
    (answersFields.find? (fun f => f.aliasPath == kv.1)).map (fun f => (f.name, kv.2)))

/-- The `Progress` pydantic model, src/ep_agent_working_copy.py lines 303-312:
eight named sections, all defaulting to `"not_started"`. -/
structure Progress where
  personalInfo : String := "not_started"
  familyInfo : String := "not_started"
  representatives : String := "not_started"
  guardians : String := "not_started"
  pets : String := "not_started"
  endOfLife : String := "not_started"
  distribution : String := "not_started"
  completed : String := "not_started"
deriving DecidableEq

/-- `SessionState`, lines 394-398: session id, answers at defaults, progress at
defaults. -/
structure SessionState where
  session_id : String
  answers : Answers := defaultAnswers
  progress : Progress := {}
deriving DecidableEq

/-- The `SessionManager.sessions` dict: session id to state, in insertion order. -/
abbrev Store := List (String × SessionState)

/-- Dict membership test `session_id not in self.sessions` (line 409). -/
def lookupSession (store : Store) (sid : String) : Option SessionState :=
  (store.find? (fun p => p.1 == sid)).map Prod.snd

/-- A fresh `SessionState(session_id=session_id)` (line 411). -/
def freshSessionState (sid : String) : SessionState := { session_id := sid }

/-- `SessionManager.get_session_state`, src/ep_agent_working_copy.py lines 407-413:
construct a fresh state only when the id is absent, then return the stored state;
the (possibly extended) store is returned alongside to model the mutation of
`self.sessions`. -/
def getSessionState (store : Store) (sid : String) : SessionState × Store :=
  match lookupSession store sid with
  | some st => (st, store)
  | none => (freshSessionState sid, store ++ [(sid, freshSessionState sid)])

/-! ## Lemmas about the token-retry loop -/

theorem getTokenGo_ok {cap : Nat → Except String String} {attempt : Nat} {t : String}
    (m r : Nat) (h : cap attempt = .ok t) :
    getTokenGo cap m attempt (r + 1) = ((some t, none), attempt + 1) := by
  simp only [getTokenGo, h]

theorem getTokenGo_retry {cap : Nat → Except String String} {attempt : Nat} {e : String}
    (m r : Nat) (h : cap attempt = .error e)
    (hrl : isRateLimitError e = true) (hlt : attempt < m - 1) :
    getTokenGo cap m attempt (r + 1) = getTokenGo cap m (attempt + 1) r := by
  simp only [getTokenGo, h]
  rw [if_pos ⟨hrl, hlt⟩]

theorem getTokenGo_fatal {cap : Nat → Except String String} {attempt : Nat} {e : String}
    (m r : Nat) (h : cap attempt = .error e)
    (hcond : ¬(isRateLimitError e = true ∧ attempt < m - 1)) :
    getTokenGo cap m attempt (r + 1) =
      ((none, some ("Error accessing gateway: " ++ e)), attempt + 1) := by
  simp only [getTokenGo, h]
  rw [if_neg hcond]

theorem getTokenGo_all_rl {cap : Nat → Except String String} {m : Nat}
    (hall : ∀ i, i < m → ∃ e', cap i = .error e' ∧ isRateLimitError e' = true) :
    ∀ r attempt, attempt + r = m → 1 ≤ r → ∀ e, cap (m - 1) = .error e →
      getTokenGo cap m attempt r = ((none, some ("Error accessing gateway: " ++ e)), m) := by
  intro r
  induction r with
  | zero => intro attempt _ h1; omega
  | succ r ih =>
    intro attempt hsum _ e hlast
    by_cases hr : 1 ≤ r
    · obtain ⟨e', he', hrl'⟩ := hall attempt (by omega)
      rw [getTokenGo_retry m r he' hrl' (by omega)]
      exact ih (attempt + 1) (by omega) hr e hlast
    · have hr0 : r = 0 := by omega
      subst hr0
      have hatt : attempt = m - 1 := by omega
      subst hatt
      rw [getTokenGo_fatal m 0 hlast (by omega)]
      have : m - 1 + 1 = m := by omega
      rw [this]

/-! ## Claim theorems: resilient token acquisition (C1, C7) -/

/-- C1: token acquisition retry counts.  For the loop of `get_access_token` with
`max_retries = 3`: (a) rate-limit failures on attempts 1 and 2 followed by a
success on attempt 3 return the token with exactly 3 capability calls; (b) when
every attempt fails with a rate-limit signal, an error is returned after exactly
`max_attempts` calls (never a call `max_attempts + 1`); (c) a non-rate-limit
failure on the first attempt returns that error immediately after exactly 1
call. -/
theorem c1_token_retry_counts (cap : Nat → Except String String) :
    (∀ e₀ e₁ t, cap 0 = .error e₀ → cap 1 = .error e₁ →
      isRateLimitError e₀ = true → isRateLimitError e₁ = true → cap 2 = .ok t →
      getAccessToken cap 3 = ((some t, none), 3)) ∧
    (∀ m e, 1 ≤ m →
      (∀ i, i < m → ∃ e', cap i = .error e' ∧ isRateLimitError e' = true) →
      cap (m - 1) = .error e →
      getAccessToken cap m = ((none, some ("Error accessing gateway: " ++ e)), m)) ∧
    (∀ m e, 1 ≤ m → cap 0 = .error e → isRateLimitError e = false →
      getAccessToken cap m = ((none, some ("Error accessing gateway: " ++ e)), 1)) := by
  refine ⟨?_, ?_, ?_⟩
  · intro e₀ e₁ t h0 h1 hrl0 hrl1 h2
    unfold getAccessToken
    rw [show (3 : Nat) = 2 + 1 from rfl, getTokenGo_retry 3 2 h0 hrl0 (by omega),
      getTokenGo_retry 3 1 h1 hrl1 (by omega), getTokenGo_ok 3 0 h2]
  · intro m e h1 hall hlast
    exact getTokenGo_all_rl hall m 0 (by omega) h1 e hlast
  · intro m e h1 h0 hrl
    obtain ⟨r, rfl⟩ : ∃ r, m = r + 1 := ⟨m - 1, by omega⟩
    unfold getAccessToken
    rw [getTokenGo_fatal (r + 1) r h0 (by simp [hrl])]

/-- Witness for C1: the three scenarios instantiated with concrete capability
stubs. -/
theorem c1_token_retry_counts_witness :
    getAccessToken stubTokenRetryThenOk 3 = ((some "tok", none), 3) ∧
    getAccessToken stubTokenAlwaysRL 3 =
      ((none, some ("Error accessing gateway: " ++ "Too Many Requests")), 3) ∧
    getAccessToken stubTokenFatal 3 =
      ((none, some ("Error accessing gateway: " ++ "boom")), 1) := by
  refine ⟨?_, ?_, ?_⟩
  · exact (c1_token_retry_counts stubTokenRetryThenOk).1 "429 Too Many Requests"
      "429 Too Many Requests" "tok" rfl rfl (by decide) (by decide) rfl
  · exact (c1_token_retry_counts stubTokenAlwaysRL).2.1 3 "Too Many Requests" (by decide)
      (fun i _ => ⟨"Too Many Requests", rfl, by decide⟩) rfl
  · exact (c1_token_retry_counts stubTokenFatal).2.2 3 "boom" (by decide) rfl (by decide)

/-- C7: the claim says the terminal error after exhausting all rate-limited
attempts carries the attempt count.  The code disagrees: a rate-limit failure on
the final attempt takes the generic fatal branch (`"Error accessing gateway:
..."`, src/ep_agent.py lines 59-62), so the returned error carries neither the
digit of the attempt count nor the word "attempt"; the `"Failed to get access
token after {max_retries} attempts"` return at line 65, the author's intended
exhausted-retries message, is unreachable for `max_retries ≥ 1`. -/
theorem c7_exhausted_retry_error_content :
    getAccessToken stubTokenAlwaysRL 3 =
      ((none, some "Error accessing gateway: Too Many Requests"), 3) ∧
    strContains "Error accessing gateway: Too Many Requests" "3" = false ∧
    strContains "Error accessing gateway: Too Many Requests" "attempt" = false := by
  decide

/-! ## Claim theorem: paginated tool listing (C6) -/

/-- C6: `list_tools` accumulates the pages in fetch order (its result is the
concatenation of the visited pages, with the call count growing by one per
page), and on the spec's stub — pages `["a","b"]` with a cursor, then `["c"]`
with a null cursor — it returns `["a","b","c"]` via exactly 2 fetch calls. -/
theorem c6_paginated_tool_listing :
    (∀ (fetch : Option Nat → List String × Option Nat) (fuel : Nat) (cursor : Option Nat)
        (acc : List String) (calls : Nat),
      listToolsGo fetch fuel cursor acc calls =
        (acc ++ (pagesVisited fetch fuel cursor).flatten,
         calls + (pagesVisited fetch fuel cursor).length)) ∧
    listTools stubFetchPages 10 = (["a", "b", "c"], 2) := by
  constructor
  · intro fetch fuel
    induction fuel with
    | zero => intro cursor acc calls; simp [listToolsGo, pagesVisited]
    | succ fuel ih =>
      intro cursor acc calls
      simp only [listToolsGo, pagesVisited]
      by_cases he : (fetch cursor).1.isEmpty
      · simp [he]
      · simp only [he, Bool.false_eq_true, if_false]
        cases hn : (fetch cursor).2 with
        | none => simp
        | some c =>
          show listToolsGo fetch fuel (some c) (acc ++ (fetch cursor).1) (calls + 1) =
            (acc ++ ((fetch cursor).1 :: pagesVisited fetch fuel (some c)).flatten,
             calls + ((fetch cursor).1 :: pagesVisited fetch fuel (some c)).length)
          rw [ih (some c) (acc ++ (fetch cursor).1) (calls + 1)]
          simp [List.append_assoc]
          omega
  · decide

/-! ## Lemmas about the section-transition loop -/

theorem markCompleted_mem_self (comp : List String) (cur : String) :
    cur ∈ markCompleted comp cur := by
  by_cases h : cur ∈ comp <;> simp [markCompleted, h]

theorem markCompleted_idem (comp : List String) (cur : String) :
    markCompleted (markCompleted comp cur) cur = markCompleted comp cur := by
  have h := markCompleted_mem_self comp cur
  rw [markCompleted, if_pos h]

theorem markCompleted_of_mem {comp : List String} {cur : String} (h : cur ∈ comp) :
    markCompleted comp cur = comp := by
  simp [markCompleted, h]

theorem transitionLoop_cur (msg : String) (nxt : Option String) (kws : List String)
    (cur : String) :
    ∀ comp, (transitionLoop msg nxt kws cur comp).1 = cur ∨
      nxt = some (transitionLoop msg nxt kws cur comp).1 := by
  induction kws with
  | nil => intro comp; left; rfl
  | cons kw rest ih =>
    intro comp
    simp only [transitionLoop]
    by_cases hc : strContains msg kw
    · simp only [hc, if_true]
      cases nxt with
      | some n => right; rfl
      | none => exact ih (markCompleted comp cur)
    · simp only [hc, Bool.false_eq_true, if_false]
      exact ih comp

theorem transitionLoop_comp (msg : String) (nxt : Option String) (kws : List String)
    (cur : String) :
    ∀ comp, (transitionLoop msg nxt kws cur comp).2 = comp ∨
      (transitionLoop msg nxt kws cur comp).2 = markCompleted comp cur := by
  induction kws with
  | nil => intro comp; left; rfl
  | cons kw rest ih =>
    intro comp
    simp only [transitionLoop]
    by_cases hc : strContains msg kw
    · simp only [hc, if_true]
      cases nxt with
      | some n => right; rfl
      | none =>
        rcases ih (markCompleted comp cur) with h | h
        · right; exact h
        · right; rw [h, markCompleted_idem]
    · simp only [hc, Bool.false_eq_true, if_false]
      exact ih comp

theorem transitionLoop_nomatch (msg : String) (nxt : Option String) (kws : List String)
    (cur : String) (comp : List String)
    (h : ∀ k ∈ kws, strContains msg k = false) :
    transitionLoop msg nxt kws cur comp = (cur, comp) := by
  induction kws with
  | nil => rfl
  | cons kw rest ih =>
    have hk : strContains msg kw = false := h kw (List.mem_cons_self kw rest)
    simp only [transitionLoop, hk, Bool.false_eq_true, if_false]
    exact ih (fun k hkm => h k (List.mem_cons_of_mem kw hkm))

theorem transitionLoop_match (msg : String) (n : String) (kws : List String)
    (cur : String) (comp : List String)
    (h : kws.any (fun k => strContains msg k) = true) :
    transitionLoop msg (some n) kws cur comp = (n, markCompleted comp cur) := by
  induction kws with
  | nil => simp at h
  | cons kw rest ih =>
    by_cases hc : strContains msg kw
    · simp [transitionLoop, hc]
    · simp only [List.any_cons, hc, Bool.false_or] at h
      simp only [transitionLoop, hc, Bool.false_eq_true, if_false]
      exact ih h

theorem transitionLoop_dichot (msg : String) (nxt : Option String) (kws : List String)
    (cur : String) (comp : List String) (hk : nxt = none → kws = []) :
    transitionLoop msg nxt kws cur comp = (cur, comp) ∨
      ∃ n, nxt = some n ∧
        transitionLoop msg nxt kws cur comp = (n, markCompleted comp cur) := by
  cases hn : nxt with
  | none => rw [hk hn]; left; rfl
  | some n =>
    by_cases ha : kws.any (fun k => strContains msg k) = true
    · right; exact ⟨n, rfl, transitionLoop_match msg n kws cur comp ha⟩
    · left
      apply transitionLoop_nomatch
      intro k hkm
      rcases Bool.eq_false_or_eq_true (strContains msg k) with h | h
      · exact absurd (List.any_eq_true.mpr ⟨k, hkm, h⟩) ha
      · exact h

/-! ## Facts about the concrete transitions table -/

theorem table_next_succ : ∀ p ∈ sectionTransitionsList, p.2.next = succInWorkflow p.1 := by
  decide

theorem table_none_empty :
    ∀ p ∈ sectionTransitionsList, p.2.next = none → p.2.keywords = [] := by
  decide

theorem sectionTransitions_mem {s : String} {info : SectionInfo}
    (h : sectionTransitions s = some info) :
    ∃ p ∈ sectionTransitionsList, p.1 = s ∧ p.2 = info := by
  unfold sectionTransitions at h
  obtain ⟨q, hq, h2⟩ := Option.map_eq_some'.mp h
  refine ⟨q, List.mem_of_find?_eq_some hq, ?_, h2⟩
  have := List.find?_some hq
  exact eq_of_beq this

theorem nextOf_eq_succ (cur : String) : nextOf cur = none ∨ nextOf cur = succInWorkflow cur := by
  unfold nextOf
  cases h : sectionTransitions cur with
  | none => left; rfl
  | some info =>
    obtain ⟨p, hp, hp1, hp2⟩ := sectionTransitions_mem h
    right
    rw [← hp2, ← hp1]
    exact table_next_succ p hp

theorem advance_dichot (cur : String) (comp : List String) (msg : String) :
    advanceSection cur comp msg = (cur, comp) ∨
      ∃ n, succInWorkflow cur = some n ∧
        advanceSection cur comp msg = (n, markCompleted comp cur) := by
  unfold advanceSection
  cases h : sectionTransitions cur with
  | none => left; rfl
  | some info =>
    obtain ⟨p, hp, hp1, hp2⟩ := sectionTransitions_mem h
    have hsucc : info.next = succInWorkflow cur := by
      rw [← hp2, ← hp1]; exact table_next_succ p hp
    have hke : info.next = none → info.keywords = [] := by
      rw [← hp2]; exact table_none_empty p hp
    rcases transitionLoop_dichot msg info.next info.keywords cur comp hke with h1 | ⟨n, hn, h2⟩
    · left; exact h1
    · right; exact ⟨n, by rw [← hsucc]; exact hn, h2⟩

/-! ## Claim theorem: single forward section step (C2) -/

/-- C2: on every invocation of the transition step the section pointer stays put
or advances to the unique successor of the current section in the fixed
`WORKFLOW_SECTIONS` ordering — never backward and never by more than one; the
completed list gains at most the current section, idempotently (no duplicate
entry when the section is already marked); no keyword match leaves the state
unchanged, and any match of the current section's keyword list (scanned in
insertion order — the outcome is the same whichever keyword hits first, since
the target never depends on the keyword) fires the single transition. -/
theorem c2_section_single_forward_step (cur : String) (comp : List String)
    (msgLower : String) :
    ((advanceSection cur comp msgLower).1 = cur ∨
      succInWorkflow cur = some (advanceSection cur comp msgLower).1) ∧
    ((advanceSection cur comp msgLower).2 = comp ∨
      (advanceSection cur comp msgLower).2 = comp ++ [cur]) ∧
    (cur ∈ comp → (advanceSection cur comp msgLower).2 = comp) ∧
    ((∀ k ∈ keywordsOf cur, strContains msgLower k = false) →
      advanceSection cur comp msgLower = (cur, comp)) ∧
    (∀ nxt, nextOf cur = some nxt →
      (keywordsOf cur).any (fun k => strContains msgLower k) = true →
      advanceSection cur comp msgLower = (nxt, markCompleted comp cur)) := by
  refine ⟨?_, ?_, ?_, ?_, ?_⟩
  · rcases advance_dichot cur comp msgLower with h | ⟨n, hn, h⟩
    · left; rw [h]
    · right; rw [h]; exact hn
  · rcases advance_dichot cur comp msgLower with h | ⟨n, hn, h⟩
    · left; rw [h]
    · rw [h]
      by_cases hm : cur ∈ comp
      · left; simp [markCompleted, hm]
      · right; simp [markCompleted, hm]
  · intro hm
    rcases advance_dichot cur comp msgLower with h | ⟨n, hn, h⟩
    · rw [h]
    · rw [h]; simp [markCompleted, hm]
  · intro hnone
    unfold advanceSection
    cases h : sectionTransitions cur with
    | none => rfl
    | some info =>
      apply transitionLoop_nomatch
      intro k hk
      apply hnone
      unfold keywordsOf
      rw [h]
      exact hk
  · intro nxt hnxt hany
    unfold advanceSection
    cases h : sectionTransitions cur with
    | none => unfold nextOf at hnxt; rw [h] at hnxt; exact absurd hnxt (by simp)
    | some info =>
      have hin : info.next = some nxt := by unfold nextOf at hnxt; rw [h] at hnxt; exact hnxt
      have hkw : info.keywords.any (fun k => strContains msgLower k) = true := by
        unfold keywordsOf at hany; rw [h] at hany; exact hany
      show transitionLoop msgLower info.next info.keywords cur comp = (nxt, markCompleted comp cur)
      rw [hin]
      exact transitionLoop_match msgLower nxt info.keywords cur comp hkw

/-- Witness for C2: in the first section, the text "i am married" triggers the
single forward step to MARITAL_STATUS and marks CLIENT_INFORMATION completed. -/
theorem c2_section_single_forward_step_witness :
    advanceSection "CLIENT_INFORMATION" [] "i am married" =
      ("MARITAL_STATUS", ["CLIENT_INFORMATION"]) := by
  have h := (c2_section_single_forward_step "CLIENT_INFORMATION" [] "i am married").2.2.2.2
    "MARITAL_STATUS" (by decide) (by decide)
  rw [h]
  decide

/-! ## The shape of reachable session states -/

/-- The canonical state after `i` completed sections: pointer on the `i`-th
section, completed list equal to the first `i` sections. -/
def shapeAt (i : Nat) : String × List String :=
  (WORKFLOW_SECTIONS.getD i "", WORKFLOW_SECTIONS.take i)

theorem succ_shape : ∀ i < 8,
    succInWorkflow (shapeAt i).1 = some (shapeAt (i + 1)).1 ∧
      markCompleted (shapeAt i).2 (shapeAt i).1 = (shapeAt (i + 1)).2 := by
  decide

theorem succ_terminal : succInWorkflow (shapeAt 8).1 = none := by decide

theorem reachable_shape : ∀ st, ReachableState st → ∃ i, i ≤ 8 ∧ st = shapeAt i := by
  intro st h
  induction h with
  | init => exact ⟨0, by omega, by decide⟩
  | step cur comp msg hr ih =>
    obtain ⟨i, hi, hst⟩ := ih
    obtain ⟨hcur0, hcomp0⟩ := Prod.ext_iff.mp hst
    have hcur : cur = (shapeAt i).1 := hcur0
    have hcomp : comp = (shapeAt i).2 := hcomp0
    rcases advance_dichot cur comp (strLower msg) with heq | ⟨n, hsucc, heq⟩
    · exact ⟨i, hi, by rw [heq]; exact hst⟩
    · by_cases h8 : i < 8
      · refine ⟨i + 1, by omega, ?_⟩
        rw [heq]
        rw [hcur] at hsucc
        rw [(succ_shape i h8).1] at hsucc
        have hn : (shapeAt (i + 1)).1 = n := Option.some.inj hsucc
        refine Prod.ext_iff.mpr ⟨hn.symm, ?_⟩
        rw [hcomp, hcur]
        exact (succ_shape i h8).2
      · have hi8 : i = 8 := by omega
        subst hi8
        rw [hcur, succ_terminal] at hsucc
        exact absurd hsucc (by simp)

/-! ## Progress percentage lemmas -/

theorem progressOf_eq (l : List String) : progressOf l = (l.length : ℚ) / 8 * 100 := by
  unfold progressOf
  rw [if_neg (by decide)]
  norm_num [WORKFLOW_SECTIONS]

theorem progress_mono (comp : List String) (cur : String) (msg : String) :
    progressOf comp ≤ progressOf ((advanceSection cur comp msg).2) := by
  have hlen : comp.length ≤ ((advanceSection cur comp msg).2).length := by
    rcases advance_dichot cur comp msg with h | ⟨n, hn, h⟩
    · rw [h]
    · rw [h]
      unfold markCompleted
      split
      · exact Nat.le_refl _
      · simp
  rw [progressOf_eq, progressOf_eq]
  have hc : (comp.length : ℚ) ≤ (((advanceSection cur comp msg).2).length : ℚ) :=
    Nat.cast_le.mpr hlen
  linarith

theorem progress_100 : ∀ st, ReachableState st →
    (progressOf st.2 = 100 ↔ ∀ sec ∈ nonTerminalSections, sec ∈ st.2) := by
  intro st h
  obtain ⟨i, hi, hst⟩ := reachable_shape st h
  rw [congrArg Prod.snd hst]
  interval_cases i <;> rw [progressOf_eq] <;>
    first
      | exact iff_of_false (by norm_num [shapeAt, WORKFLOW_SECTIONS]) (by decide)
      | exact iff_of_true (by norm_num [shapeAt, WORKFLOW_SECTIONS]) (by decide)

/-! ## Claim theorem: progress percentage (C3) -/

/-- C3: the progress percentage equals `completed / (total - 1) * 100` with the
terminal section excluded from the denominator (`total - 1` is exactly the
number of non-terminal sections), is 0 for a freshly created session (whose
completed list is empty, lines 170-175), never decreases across an invocation,
and — on every state reachable from a fresh session — equals exactly 100 just
when every non-terminal section has been marked completed. -/
theorem c3_progress_percentage (cur : String) (comp : List String) (msgLower : String) :
    progressOf [] = 0 ∧
    progressOf comp = (comp.length : ℚ) / (nonTerminalSections.length : ℚ) * 100 ∧
    progressOf comp ≤ progressOf ((advanceSection cur comp msgLower).2) ∧
    (∀ st, ReachableState st →
      (progressOf st.2 = 100 ↔ ∀ sec ∈ nonTerminalSections, sec ∈ st.2)) := by
  refine ⟨by rw [progressOf_eq]; norm_num, ?_, progress_mono comp cur msgLower, progress_100⟩
  rw [progressOf_eq]
  norm_num [nonTerminalSections, WORKFLOW_SECTIONS]

/-- Witness for C3: at the fresh session state the progress is not 100, in
accordance with the reachable-state characterization at the initial state. -/
theorem c3_progress_percentage_witness :
    (progressOf ([] : List String) = 100) ↔
      (∀ sec ∈ nonTerminalSections, sec ∈ ([] : List String)) := by
  exact (c3_progress_percentage "CLIENT_INFORMATION" [] "").2.2.2
    ("CLIENT_INFORMATION", []) ReachableState.init

/-! ## Claim theorems: corrupted section pointer (C9) -/

/-- Counterexample for C9: with a session whose pointer names no known section,
the invoke step indeed performs no transition and still completes with a
structured response — but, contrary to the claim, the condition is never
reported as an anomaly: the code reaches the corrupted pointer only through
`section_transitions.get(current_section, {})` (line 327), which silently hides
it, and every log line the modelled region emits is a generic status line free
of any problem word (error/warn/anomaly/corrupt/invalid/unknown/fail). -/
theorem c9_corrupted_pointer_counterexample :
    (invokeStep "s1" "BROKEN_SECTION" [] "we should review your assets now").current_section
        = "BROKEN_SECTION" ∧
    (invokeStep "s1" "BROKEN_SECTION" [] "we should review your assets now").completed_sections
        = [] ∧
    (invokeStep "s1" "BROKEN_SECTION" [] "we should review your assets now").result
        = "we should review your assets now" ∧
    ((invokeStep "s1" "BROKEN_SECTION" [] "we should review your assets now").logs.all
        (fun line => !(mentionsAnomaly line))) = true := by
  refine ⟨by decide, by decide, by decide, by decide⟩

/-- C9 as amended: when the current section pointer names no known section, the
state machine performs no transition (pointer and completed list unchanged, the
progress recomputed over the unchanged list), and the caller's request is not
aborted — the invoke step still completes with the full structured response —
but the condition is handled silently: only the two generic status log lines
are emitted, with no anomaly report. -/
theorem c9_corrupted_pointer_no_transition (sid cur : String) (comp : List String)
    (msgText : String) (h : sectionTransitions cur = none) :
    (invokeStep sid cur comp msgText).current_section = cur ∧
    (invokeStep sid cur comp msgText).completed_sections = comp ∧
    (invokeStep sid cur comp msgText).progress = progressOf comp ∧
    (invokeStep sid cur comp msgText).session_id = sid ∧
    (invokeStep sid cur comp msgText).result ≠ "" ∧
    (invokeStep sid cur comp msgText).logs =
      ["Retrieved metadata state with sections: " ++ pyListRepr comp,
       "Updated metadata for session: " ++ sid ++ ", current section: " ++ cur] := by
  have hadv : advanceSection cur comp (strLower msgText) = (cur, comp) := by
    unfold advanceSection
    rw [h]
  simp only [invokeStep]
  rw [hadv]
  refine ⟨rfl, rfl, rfl, trivial, ?_, rfl⟩
  by_cases hm : msgText = ""
  · simp [hm]
  · simp [hm]

/-- Witness for C9's amended statement at a concrete corrupted pointer. -/
theorem c9_corrupted_pointer_no_transition_witness :
    (invokeStep "s2" "NO_SUCH_SECTION" [] "hello").current_section = "NO_SUCH_SECTION" :=
  (c9_corrupted_pointer_no_transition "s2" "NO_SUCH_SECTION" [] "hello" (by decide)).1

/-! ## Lemmas about the answers-merge operations -/

theorem hasAttr_eq_keys (a : Answers) (k : String) :
    hasAttr a k = (a.map Prod.fst).any (fun s => s == k) := by
  unfold hasAttr
  induction a with
  | nil => rfl
  | cons p rest ih => simp only [List.any_cons, List.map_cons, ih]

theorem setAttr_keys (a : Answers) (k : String) (v : Val) :
    (setAttr a k v).map Prod.fst = a.map Prod.fst := by
  unfold setAttr
  rw [List.map_map]
  apply List.map_congr_left
  intro p _
  simp only [Function.comp]
  by_cases hb : (p.1 == k) = true
  · have hpk : p.1 = k := eq_of_beq hb
    simp [hb, hpk]
  · simp [hb]

theorem hasAttr_setAttr (a : Answers) (k : String) (v : Val) (k' : String) :
    hasAttr (setAttr a k v) k' = hasAttr a k' := by
  rw [hasAttr_eq_keys, hasAttr_eq_keys, setAttr_keys]

theorem lastValFrom_init (l : List (String × Val)) (k : String) :
    ∀ i, lastValFrom l k i = (lastValFrom l k none).elim i some := by
  induction l with
  | nil => intro i; rfl
  | cons kv rest ih =>
    intro i
    show lastValFrom rest k (if (kv.1 == k) = true then some kv.2 else i) =
      (lastValFrom rest k (if (kv.1 == k) = true then some kv.2 else none)).elim i some
    by_cases hb : (kv.1 == k) = true
    · rw [if_pos hb, if_pos hb, ih (some kv.2)]
      cases lastValFrom rest k none <;> rfl
    · rw [if_neg hb, if_neg hb]
      exact ih i

theorem lastValFrom_some_getD (l : List (String × Val)) (k : String) (v : Val) (d : Val) :
    (lastValFrom l k (some v)).getD d = (lastValFrom l k none).getD v := by
  rw [lastValFrom_init l k (some v)]
  cases lastValFrom l k none <;> rfl

theorem applyAssignments_eq_map (l : List (String × Val)) :
    ∀ a : Answers, applyAssignments a l =
      a.map (fun p => (p.1, (lastValFrom l p.1 none).getD p.2)) := by
  induction l with
  | nil =>
    intro a
    have hfun : (fun p : String × Val => (p.1, (lastValFrom [] p.1 none).getD p.2)) =
        fun p => p := funext fun p => rfl
    rw [hfun, List.map_id']
    rfl
  | cons kv rest ih =>
    intro a
    show applyAssignments (setAttr a kv.1 kv.2) rest = _
    rw [ih (setAttr a kv.1 kv.2)]
    unfold setAttr
    rw [List.map_map]
    apply List.map_congr_left
    intro p _
    simp only [Function.comp]
    by_cases hb : (p.1 == kv.1) = true
    · have hpk : p.1 = kv.1 := eq_of_beq hb
      have hb' : (kv.1 == p.1) = true := by rw [hpk]; exact beq_self_eq_true _
      rw [if_pos hb]
      show _ = (p.1, (lastValFrom rest p.1 (if (kv.1 == p.1) = true then some kv.2
        else none)).getD p.2)
      rw [if_pos hb', lastValFrom_some_getD, hpk]
    · have hb' : (kv.1 == p.1) = false := by
        rw [beq_eq_false_iff_ne]
        intro hEq
        exact hb (by rw [hEq]; exact beq_self_eq_true _)
      rw [if_neg hb]
      show _ = (p.1, (lastValFrom rest p.1 (if (kv.1 == p.1) = true then some kv.2
        else none)).getD p.2)
      rw [if_neg (by rw [hb']; exact Bool.false_ne_true)]

theorem applyAssignments_idem (a : Answers) (l : List (String × Val)) :
    applyAssignments (applyAssignments a l) l = applyAssignments a l := by
  rw [applyAssignments_eq_map l (applyAssignments a l), applyAssignments_eq_map l a,
    List.map_map]
  apply List.map_congr_left
  intro p _
  simp only [Function.comp]
  cases h : lastValFrom l p.1 none <;> simp [h]

theorem applyAssignments_keys (a : Answers) (l : List (String × Val)) :
    (applyAssignments a l).map Prod.fst = a.map Prod.fst := by
  rw [applyAssignments_eq_map, List.map_map]
  apply List.map_congr_left
  intro p _
  rfl

theorem hasAttr_applyAssignments (a : Answers) (l : List (String × Val)) (k : String) :
    hasAttr (applyAssignments a l) k = hasAttr a k := by
  rw [hasAttr_eq_keys, hasAttr_eq_keys, applyAssignments_keys]

theorem flat_eq_apply (data : List (String × Val)) :
    ∀ a : Answers, update_from_flat_dict a data =
      applyAssignments a (data.filter (fun kv => hasAttr a kv.1)) := by
  induction data with
  | nil => intro a; rfl
  | cons kv rest ih =>
    intro a
    by_cases hh : hasAttr a kv.1 = true
    · have hstep : update_from_flat_dict a (kv :: rest) =
          update_from_flat_dict (setAttr a kv.1 kv.2) rest := by
        unfold update_from_flat_dict
        rw [List.foldl_cons, if_pos hh]
      rw [hstep, ih (setAttr a kv.1 kv.2),
        List.filter_congr (fun x _ => by rw [hasAttr_setAttr] :
          ∀ x ∈ rest, (hasAttr (setAttr a kv.1 kv.2) x.1 : Bool) = hasAttr a x.1),
        List.filter_cons, if_pos hh]
      rfl
    · have hstep : update_from_flat_dict a (kv :: rest) = update_from_flat_dict a rest := by
        unfold update_from_flat_dict
        rw [List.foldl_cons, if_neg hh]
      rw [hstep, ih a, List.filter_cons, if_neg hh]

theorem dotted_eq_apply (data : List (String × Val)) :
    ∀ a : Answers, data.foldl dottedAssign a = applyAssignments a (dottedResolve data) := by
  induction data with
  | nil => intro a; rfl
  | cons kv rest ih =>
    intro a
    rw [List.foldl_cons]
    cases hf : answersFields.find? (fun f => f.aliasPath == kv.1) with
    | some f =>
      have hstep : dottedAssign a kv = setAttr a f.name kv.2 := by
        simp only [dottedAssign, hf]
      have hres : dottedResolve (kv :: rest) = (f.name, kv.2) :: dottedResolve rest := by
        simp only [dottedResolve, List.filterMap_cons, hf, Option.map_some']
      rw [hstep, ih (setAttr a f.name kv.2), hres]
      rfl
    | none =>
      have hstep : dottedAssign a kv = a := by
        simp only [dottedAssign, hf]
      have hres : dottedResolve (kv :: rest) = dottedResolve rest := by
        simp only [dottedResolve, List.filterMap_cons, hf, Option.map_none']
      rw [hstep, ih a, hres]

/-! ## Claim theorem: merge idempotence (C5) -/

/-- C5: applying the same update map twice through `update_answers` yields
exactly the state of applying it once — each resolved key is a plain per-field
overwrite (including whole-list replacement, since a list value is stored as an
opaque whole), so a second pass re-assigns the same values. -/
theorem c5_merge_idempotent (a : Answers) (U : List (String × Val)) :
    update_answers (update_answers a U) U = update_answers a U := by
  unfold update_answers
  by_cases hd : U.any (fun kv => strHasChar kv.1 '.') = true
  · rw [if_pos hd, if_pos hd, dotted_eq_apply, dotted_eq_apply, applyAssignments_idem]
  · rw [if_neg hd, if_neg hd, flat_eq_apply, flat_eq_apply,
      List.filter_congr (fun x _ => by rw [hasAttr_applyAssignments] :
        ∀ x ∈ U, (hasAttr (applyAssignments a (U.filter (fun kv => hasAttr a kv.1))) x.1 : Bool)
          = hasAttr a x.1),
      applyAssignments_idem]

/-! ## Claim theorems: alias/canonical merge equivalence (C4) and per-map key
detection (C10) -/

/-- Counterexample for C4: the claim quantifies over every field of the schema,
but for `maintain_in_home` (alias `maintainInHome`, which contains no dot) the
alias form is silently ignored — a single-key update map with the alias goes
down the flat branch, where only attribute names match — while the canonical
form updates the record, so the two merge results differ. -/
theorem c4_alias_canonical_counterexample :
    update_answers defaultAnswers [("maintainInHome", Val.s "yes")] ≠
      update_answers defaultAnswers [("maintain_in_home", Val.s "yes")] ∧
    update_answers defaultAnswers [("maintainInHome", Val.s "yes")] = defaultAnswers := by
  refine ⟨by decide, by decide⟩

/-- C4 as amended: supplying a single schema field through its dotted alias is
equivalent to supplying it through its canonical attribute name whenever the
alias contains a literal `.` (which routes the map to the alias-matching branch)
or the alias coincides with the attribute name; the seven dot-free camelCase
aliases (for example `maintainInHome`) fall outside this and are silently
ignored.  Key-form detection is per update map, by the literal-dot test only. -/
theorem c4_alias_canonical_merge (f : FieldSpec) (hf : f ∈ answersFields)
    (hdot : strHasChar f.aliasPath '.' = true ∨ f.aliasPath = f.name)
    (a : Answers) (hWF : a.map Prod.fst = answersFields.map FieldSpec.name) (v : Val) :
    update_answers a [(f.aliasPath, v)] = update_answers a [(f.name, v)] := by
  rcases hdot with hdot | heq
  · have hname : strHasChar f.name '.' = false :=
      (show ∀ g ∈ answersFields, strHasChar g.name '.' = false by decide) f hf
    have hfind : answersFields.find? (fun g => g.aliasPath == f.aliasPath) = some f :=
      (show ∀ g ∈ answersFields,
        answersFields.find? (fun x => x.aliasPath == g.aliasPath) = some g by decide) f hf
    have hhas : hasAttr a f.name = true := by
      rw [hasAttr_eq_keys, hWF, List.any_eq_true]
      exact ⟨f.name, List.mem_map.mpr ⟨f, hf, rfl⟩, beq_self_eq_true _⟩
    have hL : update_answers a [(f.aliasPath, v)] = setAttr a f.name v := by
      unfold update_answers
      rw [if_pos (by simp [hdot])]
      show dottedAssign a (f.aliasPath, v) = _
      simp only [dottedAssign, hfind]
    have hR : update_answers a [(f.name, v)] = setAttr a f.name v := by
      unfold update_answers
      rw [if_neg (by simp [hname])]
      show (if hasAttr a f.name = true then setAttr a f.name v else a) = _
      rw [if_pos hhas]
    rw [hL, hR]
  · rw [heq]

/-- Witness for C4's amended statement: the `full_name` field updated through its
dotted alias `client.fullName` and through its canonical name agree. -/
theorem c4_alias_canonical_merge_witness :
    update_answers defaultAnswers [("client.fullName", Val.s "John")] =
      update_answers defaultAnswers [("full_name", Val.s "John")] :=
  c4_alias_canonical_merge ⟨"full_name", "client.fullName", false⟩ (by decide)
    (Or.inl (by decide)) defaultAnswers (by decide) (Val.s "John")

/-- Counterexample for C10: the claim says that in a map containing a dotted key
every canonical key is silently ignored; but the alias of the `guardians` field
equals its canonical name, so the canonical key `"guardians"` matches in the
alias branch and takes effect even alongside a dotted key. -/
theorem c10_per_map_key_detection_counterexample :
    update_answers defaultAnswers
        [("client.fullName", Val.s "A"), ("guardians", Val.l ["g"])] ≠
      update_answers defaultAnswers [("client.fullName", Val.s "A")] := by
  decide

/-- C10 as amended: key-style detection is made once per update map — any key
containing a literal `.` routes the whole map through alias matching — and in
that mode a key that equals no field's alias (in particular a canonical
attribute name other than `guardians`, whose alias coincides with its name) is
silently ignored: deleting it from the map leaves the merge result unchanged. -/
theorem c10_per_map_key_detection (a : Answers) (U₁ U₂ : List (String × Val))
    (k : String) (v : Val)
    (hdot : (U₁ ++ U₂).any (fun kv => strHasChar kv.1 '.') = true)
    (halias : ∀ g ∈ answersFields, g.aliasPath ≠ k) :
    update_answers a (U₁ ++ (k, v) :: U₂) = update_answers a (U₁ ++ U₂) := by
  have hdot' : (U₁ ++ (k, v) :: U₂).any (fun kv => strHasChar kv.1 '.') = true := by
    rw [List.any_append] at hdot
    rw [List.any_append, List.any_cons]
    rcases Bool.or_eq_true_iff.mp hdot with h | h
    · rw [h]; rfl
    · rw [h]; simp
  have hfind : answersFields.find? (fun g => g.aliasPath == k) = none := by
    rw [List.find?_eq_none]
    intro g hg
    simp only [Bool.not_eq_true, beq_eq_false_iff_ne]
    exact halias g hg
  unfold update_answers
  rw [if_pos hdot', if_pos hdot, List.foldl_append, List.foldl_append, List.foldl_cons]
  have hmid : ∀ acc : Answers, dottedAssign acc (k, v) = acc := by
    intro acc
    simp only [dottedAssign, hfind]
  rw [hmid]

/-- Witness for C10's amended statement: the canonical key `full_name` is ignored
when it travels in the same map as a dotted key. -/
theorem c10_per_map_key_detection_witness :
    update_answers defaultAnswers
        [("client.fullName", Val.s "A"), ("full_name", Val.s "B")] =
      update_answers defaultAnswers [("client.fullName", Val.s "A")] :=
  c10_per_map_key_detection defaultAnswers [("client.fullName", Val.s "A")] []
    "full_name" (Val.s "B") (by decide) (by decide)

/-! ## Claim theorem: idempotent session creation (C8) -/

theorem find?_append_none {α : Type} {p : α → Bool} {l : List α}
    (h : l.find? p = none) (l' : List α) : (l ++ l').find? p = l'.find? p := by
  induction l with
  | nil => rfl
  | cons a rest ih =>
    rw [List.cons_append]
    by_cases hp : p a = true
    · rw [List.find?_cons_of_pos _ hp] at h
      exact absurd h (by simp)
    · rw [List.find?_cons_of_neg _ hp] at h
      rw [List.find?_cons_of_neg _ hp]
      exact ih h

/-- C8: `get_session_state` is an idempotent get-or-create.  A second call with
the same id returns exactly the first call's state and leaves the store
untouched (no reset); when the id is absent a fresh `SessionState` is
constructed — default answers, every progress section `not_started` — and when
the id is present the stored state is returned with no construction at all.
The companion metadata initialization of the sample agent places the section
pointer on the first workflow section exactly when the metadata is fresh, and
never resets existing metadata. -/
theorem c8_idempotent_session_creation (store : Store) (sid : String) :
    (getSessionState (getSessionState store sid).2 sid =
      ((getSessionState store sid).1, (getSessionState store sid).2)) ∧
    (lookupSession store sid = none →
      (getSessionState store sid).1 = freshSessionState sid ∧
      (freshSessionState sid).answers = defaultAnswers ∧
      (freshSessionState sid).progress =
        ⟨"not_started", "not_started", "not_started", "not_started",
         "not_started", "not_started", "not_started", "not_started"⟩) ∧
    (∀ st, lookupSession store sid = some st → getSessionState store sid = (st, store)) ∧
    (ensureMetadata none = freshMetadata ∧
      freshMetadata.client_state = some ⟨"CLIENT_INFORMATION", 0⟩ ∧
      WORKFLOW_SECTIONS.head? = some "CLIENT_INFORMATION") ∧
    (∀ md cs, md.client_state = some cs → ensureMetadata (some md) = md) := by
  refine ⟨?_, ?_, ?_, ⟨rfl, rfl, rfl⟩, ?_⟩
  · cases h : lookupSession store sid with
    | some st =>
      have h1 : getSessionState store sid = (st, store) := by
        simp only [getSessionState, h]
      rw [h1]
      simpa using h1
    | none =>
      have h1 : getSessionState store sid =
          (freshSessionState sid, store ++ [(sid, freshSessionState sid)]) := by
        simp only [getSessionState, h]
      have h0 : store.find? (fun p => p.1 == sid) = none := by
        cases hf : store.find? (fun p => p.1 == sid) with
        | none => rfl
        | some q =>
          unfold lookupSession at h
          rw [hf] at h
          exact absurd h (by simp)
      have h2 : lookupSession (store ++ [(sid, freshSessionState sid)]) sid =
          some (freshSessionState sid) := by
        unfold lookupSession
        rw [find?_append_none h0]
        simp [List.find?]
      have h3 : getSessionState (store ++ [(sid, freshSessionState sid)]) sid =
          (freshSessionState sid, store ++ [(sid, freshSessionState sid)]) := by
        simp only [getSessionState, h2]
      rw [h1]
      simpa using h3
  · intro h
    refine ⟨?_, rfl, rfl⟩
    simp only [getSessionState, h]
  · intro st h
    simp only [getSessionState, h]
  · intro md cs h
    show (if md.client_state = none then freshMetadata else md) = md
    rw [if_neg (by rw [h]; exact fun hc => Option.noConfusion hc)]

/-- Witness for C8 at the empty store: the first call constructs the fresh
default state. -/
theorem c8_idempotent_session_creation_witness :
    (getSessionState [] "s1").1 = freshSessionState "s1" :=
  ((c8_idempotent_session_creation [] "s1").2.1 rfl).1
